import Mathlib

/-
  Verification development for a client-side PDF page tool.

  The program under study consists of a PDF service module (thumbnail
  generation, page removal, page extraction, merging, and a two-step
  file-save flow over the File System Access API) and an application
  component holding the page-selection model and the save coordinator.

  A loaded PDF document is modelled as the list of its pages (`List α`,
  one element per page, in document order); the pdf-lib operations
  `removePage`, `copyPages` and `addPage` are modelled on that list.
  Fallible operations return `Except`.
-/

namespace PdfTool

/-! ## Sorting model

JavaScript `array.sort(cmp)` sorts the receiver array in place.  The
service functions always call it on a fresh spread copy with a numeric
comparator: `(a, b) => b - a` (descending) in `removePagesAndSave` and
`(a, b) => a - b` (ascending) in `extractPagesAndSave`.  We model the
resulting contents with a mergesort under the corresponding order. -/

/-- Contents produced by `[...arr].sort((a, b) => b - a)`: the indices in
descending order. -/
def sortDesc (l : List Nat) : List Nat :=
  l.mergeSort (fun a b => decide (b ≤ a))

/-- Contents produced by `[...arr].sort((a, b) => a - b)`: the indices in
ascending order. -/
def sortAsc (l : List Nat) : List Nat :=
  l.mergeSort (fun a b => decide (a ≤ b))

/-! ## Page mutator -/

/-- Errors raised by the modelled pdf-lib page operations. -/
inductive MutErr where
  | pageIndexOutOfRange
deriving DecidableEq

/-- Model of pdf-lib `pdfDoc.removePage(idx)`: removes the page at 0-based
index `idx`, throwing when the index is out of range for the current
document. -/
def removePage (doc : List α) (idx : Nat) : Except MutErr (List α) :=
  if idx < doc.length then .ok (doc.eraseIdx idx) else .error .pageIndexOutOfRange

/-- The removal loop of `removePagesAndSave`: sequential `removePage`
calls over the (already sorted) index list, stopping at the first error. -/
def removeLoop (doc : List α) : List Nat → Except MutErr (List α)
  | [] => .ok doc
  | i :: is => (removePage doc i).bind (fun d => removeLoop d is)

/-- Model of `removePagesAndSave(originalFile, pageIndicesToRemove)`:
the document is reloaded from the original bytes (here: given as its page
list), a spread copy of the index array is sorted descending, and the
pages are removed one by one in that order.  The serialized result is
modelled as the resulting page list. -/
def removePagesAndSave (doc : List α) (pageIndicesToRemove : List Nat) :
    Except MutErr (List α) :=
  removeLoop doc (sortDesc pageIndicesToRemove)

/-- Model of pdf-lib `newDoc.copyPages(srcDoc, indices)`: looks up each
requested page of the source, failing when an index is out of range. -/
def copyPages (doc : List α) : List Nat → Except MutErr (List α)
  | [] => .ok []
  | i :: is =>
    match doc[i]? with
    | some a => (copyPages doc is).map (fun ps => a :: ps)
    | none => .error .pageIndexOutOfRange

/-- The copy loop of `extractPagesAndSave`: for each index (in the order of
the sorted list) copy that single page out of the source document and
append it (`addPage`) to the growing output document `acc`. -/
def extractLoop (doc : List α) (acc : List α) : List Nat → Except MutErr (List α)
  | [] => .ok acc
  | i :: is => (copyPages doc [i]).bind (fun ps => extractLoop doc (acc ++ ps) is)

/-- Model of `extractPagesAndSave(originalFile, pageIndicesToExtract)`:
reloads the source document, creates an empty output document, sorts a
spread copy of the index array ascending, and copies the selected pages
into the output in that order. -/
def extractPagesAndSave (doc : List α) (pageIndicesToExtract : List Nat) :
    Except MutErr (List α) :=
  extractLoop doc [] (sortAsc pageIndicesToExtract)

/-- Model of pdf-lib `pdf.getPageIndices()`: the list `[0, ..., n-1]` for an
`n`-page document. -/
def getPageIndices (doc : List α) : List Nat :=
  List.range doc.length

/-- The merge loop of `mergePdfs`: for each input file in list order, load
it, copy all of its pages (`copyPages` over `getPageIndices`) and append
them (`addPage` for each) to the growing merged document `acc`. -/
def mergeLoop (acc : List α) : List (List α) → Except MutErr (List α)
  | [] => .ok acc
  | d :: ds => (copyPages d (getPageIndices d)).bind (fun ps => mergeLoop (acc ++ ps) ds)

/-- Model of `mergePdfs(files)`: creates an empty output document and
appends every page of every input document, inputs taken in list order.
Each input file is given as its (successfully parsed) page list. -/
def mergePdfs (docs : List (List α)) : Except MutErr (List α) :=
  mergeLoop [] docs

/-! ## Specification-side description of removal

The specification describes the result of `removePages` as "the original
order with the members of S excised".  `exciseIndices doc p` keeps, in
order, exactly the pages whose 0-based position does not satisfy `p`. -/

/-- Pages of `doc` whose 0-based position does not satisfy `p`, in the
original order.  This is the specification's wording, written as a
definition to compare the code's removal loop against. -/
def exciseIndices (doc : List α) (p : Nat → Bool) : List α :=
  match doc with
  | [] => []
  | a :: as =>
    if p 0 then exciseIndices as (fun n => p (n + 1))
    else a :: exciseIndices as (fun n => p (n + 1))

/-! ## Thumbnail pipeline

`generateThumbnails(file, onProgress)` opens the byte buffer with the
decoder (pdf.js `getDocument`), then loops `i = 1 .. totalPages`
sequentially: get page `i`, build a viewport at scale 0.5, create a
canvas, get its 2d context — skipping the page entirely (`continue`:
no thumbnail pushed, no progress reported) when the context is null —
render the page, push `{ index: i - 1, url, width, height }` and call
`onProgress(i, totalPages)`.

The decoder outcome is the parameter `openResult` (either a
`DecodeError`-like error or the page list); `render` abstracts the
canvas render plus `toDataURL`; `ctxOk i` tells whether the 2d-context
acquisition for iteration `i` succeeds (in a browser it always does;
the null-check is defensive).  Progress calls are collected in order as
`(current, total)` pairs. -/

/-- One generated page preview: 0-based page index and the rendered
data-URL (`width`/`height` of the viewport are not modelled — no claim
mentions them). -/
structure Thumb (β : Type) where
  index : Nat
  url : β
deriving DecidableEq

/-- The page loop of `generateThumbnails`, with `i` the 1-based loop
counter.  Returns the pushed thumbnails and the `onProgress` call list,
each in call order. -/
def genLoop (render : α → β) (ctxOk : Nat → Bool) (total : Nat) :
    Nat → List α → List (Thumb β) × List (Nat × Nat)
  | _, [] => ([], [])
  | i, p :: ps =>
    if ctxOk i then
      let rest := genLoop render ctxOk total (i + 1) ps
      ({ index := i - 1, url := render p } :: rest.1, (i, total) :: rest.2)
    else genLoop render ctxOk total (i + 1) ps

/-- Model of `generateThumbnails(file, onProgress)`: if the decoder
rejects the buffer the error propagates and nothing is produced;
otherwise the sequential page loop runs over all pages. -/
def generateThumbnails (render : α → β) (ctxOk : Nat → Bool)
    (openResult : Except ε (List α)) :
    Except ε (List (Thumb β) × List (Nat × Nat)) :=
  match openResult with
  | .error e => .error e
  | .ok pages => .ok (genLoop render ctxOk pages.length 1 pages)

/-! ## Write step

`writePdfToHandle(handle, data)` runs three awaits in sequence with no
try/finally: `createWritable()`, `write(data)`, `close()`.  We model the
handle by the outcomes of those steps and record which of them actually
ran; a thrown error aborts the remaining steps and is the rejection of
the returned promise. -/

/-- A JavaScript error value; only its `name` is ever inspected by the
program (the `AbortError` check). -/
structure JsErr where
  name : String
deriving DecidableEq

/-- Steps of `writePdfToHandle` that can be observed to have run. -/
inductive WriteEv where
  | createdWritable
  | wroteData
  | closedWritable
deriving DecidableEq

/-- Behaviour of the writable stream produced by `createWritable()`. -/
structure WritableBeh where
  writeResult : Except JsErr Unit
  closeResult : Except JsErr Unit

/-- Behaviour of an acquired file handle. -/
structure HandleBeh where
  createResult : Except JsErr WritableBeh

/-- Model of `writePdfToHandle(handle, data)`: the list of steps that
ran, in order, and the error the returned promise rejects with (`none`
when it fulfils). -/
def writePdfToHandle (h : HandleBeh) : List WriteEv × Option JsErr :=
  match h.createResult with
  | .error e => ([], some e)
  | .ok w =>
    match w.writeResult with
    | .error e => ([.createdWritable], some e)
    | .ok _ =>
      match w.closeResult with
      | .error e => ([.createdWritable, .wroteData], some e)
      | .ok _ => ([.createdWritable, .wroteData, .closedWritable], none)

/-! ## Save coordinator

`handleConfirmSave` in the application component: if the File System
Access API is supported, it first requests a save-file handle via
`getSaveFileHandle` (which returns null when unsupported, returns the
handle on success, re-throws `AbortError`, and swallows any other picker
error into a null handle after a console warning).  An `AbortError`
stops the whole save.  Then the page mutator runs, and the bytes go to
the handle when one was acquired, otherwise to `downloadBlob`.  Any
error in that second phase is reported with a single alert. -/

/-- Environment of one save action: runtime capability and the outcomes
of the external steps (picker, mutator, handle write).  The handle is an
opaque token; the mutated bytes are opaque. -/
structure SaveEnv where
  supportsFS : Bool
  pickerResult : Except JsErr Nat
  mutateResult : Except JsErr Nat
  writeResult : Except JsErr Unit

/-- Observable side effects of one save action, in order. -/
inductive SaveEv where
  | warnedHandleFailure
  | mutatorInvoked
  | wroteToHandle
  | downloadedBlob
  | alertedError
deriving DecidableEq

/-- Terminal condition of one save action. -/
inductive SaveOutcome where
  | noFile
  | cancelled
  | completed
  | failed
deriving DecidableEq

/-- Model of `getSaveFileHandle(filename)`: `ok none` when the capability
is absent, `ok (some h)` on success, the re-thrown error when the picker
throws an `AbortError`, and `ok none` plus a console warning on any
other picker error. -/
def getSaveFileHandle (env : SaveEnv) : Except JsErr (Option Nat) × List SaveEv :=
  if env.supportsFS = false then (.ok none, [])
  else
    match env.pickerResult with
    | .ok h => (.ok (some h), [])
    | .error e =>
      if e.name = "AbortError" then (.error e, [])
      else (.ok none, [.warnedHandleFailure])

/-- Second phase of `handleConfirmSave`: invoke the page mutator and then
write to the acquired handle or fall back to `downloadBlob`; any error is
reported with a single alert.  `downloadBlob` itself is synchronous DOM
manipulation and is modelled as always succeeding. -/
def finishSave (env : SaveEnv) (fileHandle : Option Nat) (evs : List SaveEv) :
    SaveOutcome × List SaveEv :=
  let evs2 := evs ++ [.mutatorInvoked]
  match env.mutateResult with
  | .error _ => (.failed, evs2 ++ [.alertedError])
  | .ok _ =>
    match fileHandle with
    | some _ =>
      match env.writeResult with
      | .ok _ => (.completed, evs2 ++ [.wroteToHandle])
      | .error _ => (.failed, evs2 ++ [.alertedError])
    | none => (.completed, evs2 ++ [.downloadedBlob])

/-- Model of `handleConfirmSave`: nothing happens without a loaded file;
otherwise the handle is acquired first (when supported), an `AbortError`
from the picker stops everything, any other acquisition failure falls
through to the no-handle path (with a warning), and then the second
phase runs. -/
def handleConfirmSave (env : SaveEnv) (file : Option Nat) :
    SaveOutcome × List SaveEv :=
  match file with
  | none => (.noFile, [])
  | some _ =>
    let acquire : Except JsErr (Option Nat) × List SaveEv :=
      if env.supportsFS then getSaveFileHandle env else (.ok none, [])
    match acquire with
    | (.error e, evs) =>
      if e.name = "AbortError" then (.cancelled, evs)
      else finishSave env none (evs ++ [.warnedHandleFailure])
    | (.ok fileHandle, evs) => finishSave env fileHandle evs

/-! ## Selection model

`togglePageSelection(index, event)` in the application component: with
the shift key down and a last-selected index present, it adds every
index from `min(last, index)` to `max(last, index)` to the selection set
(a JavaScript `Set`, modelled as a `Finset`), leaving the last-selected
index unchanged; otherwise it toggles `index` and records it as the
last-selected index. -/

/-- The range-add loop `for (let i = start; i <= end; i++) newSet.add(i)`,
written with an explicit iteration count. -/
def addRangeGo (sel : Finset Nat) (i : Nat) : Nat → Finset Nat
  | 0 => sel
  | n + 1 => addRangeGo (insert i sel) (i + 1) n

/-- Adds every index of the inclusive span `[a, b]` to the set. -/
def addRange (sel : Finset Nat) (a b : Nat) : Finset Nat :=
  addRangeGo sel a (b + 1 - a)

/-- Model of `togglePageSelection(index, event)`: returns the new
selection set and the new last-selected index. -/
def togglePageSelection (idx : Nat) (shiftKey : Bool)
    (sel : Finset Nat) (last : Option Nat) : Finset Nat × Option Nat :=
  match shiftKey, last with
  | true, some l => (addRange sel (min l idx) (max l idx), some l)
  | _, _ => (if idx ∈ sel then sel.erase idx else insert idx sel, some idx)

/-! ## Application state machine

The mutable component state relevant to the selection invariant:
the loaded file (modelled by its page count), the thumbnail list (by the
page indices it holds), the selection set, the last-selected index and
the processing flag.  Two async handlers drive that state:
`handleFileSelect` (sets the file and raises `isProcessing`, then on
resolution stores the thumbnails or, in its catch branch, drops the
file, lowering `isProcessing` in its finally block either way) and
`handleConfirmSave` (raises `isProcessing` once past the cancellation
check, runs the mutator and the write or download — touching none of
the other modelled fields — and lowers `isProcessing` in its finally
block).  Because the continuations of those two in-flight calls are
part of the component's execution state, the state carries a `pending`
marker recording which call, if any, is awaiting resolution; it is what
enables the resolution events.

The events are guarded by the conditions under which the UI makes them
reachable: a file can only be picked while no file is loaded (the
upload view is only rendered then); a page can only be clicked when a
file is loaded and its index is one of the rendered thumbnails (the
grid stays clickable during a save); a save can only start for a
loaded file with a non-empty selection and no processing in flight
(`openSaveModal` returns on an empty selection and the action button is
disabled while processing); and the reset button is only rendered for a
loaded, non-processing file. -/

/-- The async handler whose continuation is currently awaiting
resolution: none, a `handleFileSelect` call, or a `handleConfirmSave`
call that got past the cancellation check. -/
inductive PendingOp where
  | idle
  | loading
  | saving
deriving DecidableEq

/-- Component state: the fields the selection invariant talks about,
plus the pending-operation marker for the in-flight async call. -/
structure AppState where
  file : Option Nat
  thumbnails : List Nat
  selected : Finset Nat
  lastSelected : Option Nat
  isProcessing : Bool
  pending : PendingOp
deriving DecidableEq

/-- The initial component state. -/
def appInit : AppState :=
  { file := none, thumbnails := [], selected := ∅, lastSelected := none,
    isProcessing := false, pending := .idle }

/-- User-interface events that update the modelled state. -/
inductive AppEvent where
  | selectStart (pages : Nat)
  | selectSuccess
  | selectFailure
  | pageClick (idx : Nat) (shiftKey : Bool)
  | clearSelection
  | saveStart
  | saveFinish
  | reset
deriving DecidableEq

/-- One state transition of the application component.

`selectStart` is the synchronous prefix of `handleFileSelect` (set the
file, raise the processing flag); `selectSuccess` is its continuation
after `generateThumbnails` resolves (store the `pages` thumbnails,
indices `0..pages-1`, and lower the flag — one transition, since React
batches the two updates into one render); `selectFailure` is its catch
branch (drop the file, lower the flag).  `pageClick` is
`togglePageSelection` and `clearSelection` the clear-selection button.
`saveStart` is `handleConfirmSave` reaching `setIsProcessing(true)`
after the cancellation check (a cancelled save changes no modelled
state at all); `saveFinish` is its finally block — the save path reads
but never writes the file, thumbnail and selection fields.  `reset` is
the `resetApp` handler. -/
inductive Step : AppState → AppEvent → AppState → Prop where
  | selectStart (s : AppState) (N : Nat) (hf : s.file = none) :
      Step s (.selectStart N)
        { s with file := some N, isProcessing := true, pending := .loading }
  | selectSuccess (s : AppState) (N : Nat) (hf : s.file = some N)
      (hp : s.pending = .loading) :
      Step s .selectSuccess
        { s with thumbnails := List.range N, isProcessing := false, pending := .idle }
  | selectFailure (s : AppState) (hp : s.pending = .loading) :
      Step s .selectFailure
        { s with file := none, isProcessing := false, pending := .idle }
  | pageClick (s : AppState) (idx : Nat) (shiftKey : Bool)
      (hf : s.file ≠ none) (ht : idx ∈ s.thumbnails) :
      Step s (.pageClick idx shiftKey)
        { s with
          selected := (togglePageSelection idx shiftKey s.selected s.lastSelected).1,
          lastSelected := (togglePageSelection idx shiftKey s.selected s.lastSelected).2 }
  | clearSelection (s : AppState) (hf : s.file ≠ none) :
      Step s .clearSelection { s with selected := ∅ }
  | saveStart (s : AppState) (hf : s.file ≠ none) (hsel : s.selected.Nonempty)
      (hp : s.isProcessing = false) :
      Step s .saveStart { s with isProcessing := true, pending := .saving }
  | saveFinish (s : AppState) (hp : s.pending = .saving) :
      Step s .saveFinish { s with isProcessing := false, pending := .idle }
  | reset (s : AppState) (hf : s.file ≠ none) (hp : s.isProcessing = false) :
      Step s .reset appInit

/-- States reachable from the initial state through UI events. -/
inductive Reachable : AppState → Prop where
  | init : Reachable appInit
  | step {s s2 : AppState} {e : AppEvent} :
      Reachable s → Step s e s2 → Reachable s2

/-- The inductive invariant of the component state: with no file loaded
(or while a file load is still awaiting resolution) the selection, the
thumbnails and the last-selected index are all empty, and with a file
of `N` pages loaded every selected index, every thumbnail index and the
last-selected index are below `N`.  A pending save constrains nothing:
saves run with the selection intact. -/
def AppInv (s : AppState) : Prop :=
  (s.file = none → s.selected = ∅ ∧ s.thumbnails = [] ∧ s.lastSelected = none) ∧
  (s.pending = .loading → s.selected = ∅ ∧ s.thumbnails = [] ∧ s.lastSelected = none) ∧
  ∀ N, s.file = some N →
    (∀ i ∈ s.selected, i < N) ∧ (∀ i ∈ s.thumbnails, i < N) ∧
    ∀ l2, s.lastSelected = some l2 → l2 < N

/-! ## Store-level view of the index-array arguments

`removePagesAndSave` and `extractPagesAndSave` receive the caller's
index array by reference.  To talk about mutation of that array we model
a store of JavaScript arrays (reference number to contents): the body
first evaluates the spread `[...indices]` into a fresh reference, then
`sort` mutates that fresh reference in place, and the page loop reads
it.  The functions return the final store alongside the result. -/

/-- Store-level model of `removePagesAndSave`: `r` is the caller's array
reference, `fresh` the reference allocated for the spread copy. -/
def removePagesAndSaveStore (doc : List α) (σ : Nat → List Nat) (r fresh : Nat) :
    (Nat → List Nat) × Except MutErr (List α) :=
  let σ1 := fun x => if x = fresh then σ r else σ x
  let σ2 := fun x => if x = fresh then sortDesc (σ1 fresh) else σ1 x
  (σ2, removeLoop doc (σ2 fresh))

/-- Store-level model of `extractPagesAndSave`: `r` is the caller's array
reference, `fresh` the reference allocated for the spread copy. -/
def extractPagesAndSaveStore (doc : List α) (σ : Nat → List Nat) (r fresh : Nat) :
    (Nat → List Nat) × Except MutErr (List α) :=
  let σ1 := fun x => if x = fresh then σ r else σ x
  let σ2 := fun x => if x = fresh then sortAsc (σ1 fresh) else σ1 x
  (σ2, extractLoop doc [] (σ2 fresh))

/-! ## Helper lemmas -/

theorem sortDesc_perm (l : List Nat) : (sortDesc l).Perm l :=
  List.mergeSort_perm l _

theorem sortAsc_perm (l : List Nat) : (sortAsc l).Perm l :=
  List.mergeSort_perm l _

theorem sortDesc_pairwise_ge (l : List Nat) : (sortDesc l).Pairwise (· ≥ ·) := by
  have h := @List.sorted_mergeSort Nat (fun a b : Nat => decide (b ≤ a))
    (fun a b c hab hbc => by
      simp only [decide_eq_true_eq] at *; omega)
    (fun a b => by
      rcases Nat.le_total a b with h | h <;> simp [h]) l
  exact h.imp (by simp)

theorem sortAsc_sorted (l : List Nat) : (sortAsc l).Sorted (· ≤ ·) := by
  have h := @List.sorted_mergeSort Nat (fun a b : Nat => decide (a ≤ b))
    (fun a b c hab hbc => by
      simp only [decide_eq_true_eq] at *; omega)
    (fun a b => by
      rcases Nat.le_total a b with h | h <;> simp [h]) l
  exact h.imp (by simp)

theorem pairwise_gt_of_ge_nodup :
    ∀ {l : List Nat}, l.Pairwise (· ≥ ·) → l.Nodup → l.Pairwise (· > ·) := by
  intro l hge hnd
  induction l with
  | nil => exact List.Pairwise.nil
  | cons a as ih =>
    rcases List.pairwise_cons.mp hge with ⟨ha, has⟩
    rcases List.pairwise_cons.mp hnd with ⟨hne, hnds⟩
    exact List.pairwise_cons.mpr
      ⟨fun b hb => lt_of_le_of_ne (ha b hb) (fun h => hne b hb h.symm), ih has hnds⟩

theorem exciseIndices_congr :
    ∀ (doc : List α) (p q : Nat → Bool), (∀ n, p n = q n) →
      exciseIndices doc p = exciseIndices doc q := by
  intro doc
  induction doc with
  | nil => intro p q _; rfl
  | cons a as ih =>
    intro p q h
    simp only [exciseIndices, h 0, ih (fun n => p (n + 1)) (fun n => q (n + 1)) (fun n => h (n + 1))]

theorem exciseIndices_of_false :
    ∀ (doc : List α) (p : Nat → Bool), (∀ n, p n = false) →
      exciseIndices doc p = doc := by
  intro doc
  induction doc with
  | nil => intro p _; rfl
  | cons a as ih =>
    intro p h
    simp only [exciseIndices, h 0, Bool.false_eq_true, if_false,
      ih (fun n => p (n + 1)) (fun n => h (n + 1))]

theorem exciseIndices_eraseIdx :
    ∀ (doc : List α) (i : Nat) (p : Nat → Bool), i < doc.length →
      (∀ j, p j = true → j < i) →
      exciseIndices (doc.eraseIdx i) p
        = exciseIndices doc (fun n => (n == i) || p n) := by
  intro doc
  induction doc with
  | nil => intro i p hi _; simp at hi
  | cons a as ih =>
    intro i p hi hp
    cases i with
    | zero =>
      have hfalse : ∀ n, p n = false := by
        intro n
        cases h : p n with
        | false => rfl
        | true => exact absurd (hp n h) (Nat.not_lt_zero n)
      simp only [List.eraseIdx_zero, List.tail_cons, exciseIndices]
      have h0 : ((0 : Nat) == 0) || p 0 = true := by simp
      rw [exciseIndices_of_false as p hfalse]
      simp only [Nat.zero_eq, beq_self_eq_true, Bool.true_or, if_true]
      rw [exciseIndices_of_false as _ (by intro n; simp [hfalse (n + 1)])]
    | succ i2 =>
      have hlen : i2 < as.length := by
        simp only [List.length_cons] at hi; omega
      simp only [List.eraseIdx_cons_succ, exciseIndices]
      have hhead : (((0 : Nat) == i2 + 1) || p 0) = p 0 := by
        simp [Nat.succ_ne_zero]
      rw [hhead]
      have htail := ih i2 (fun n => p (n + 1)) hlen
        (fun j hj => by have := hp (j + 1) hj; omega)
      have hcongr : exciseIndices as (fun n => (n == i2) || p (n + 1))
          = exciseIndices as (fun n => ((n + 1 == i2 + 1) : Bool) || p (n + 1)) := by
        apply exciseIndices_congr
        intro n
        have : (n == i2) = ((n + 1 == i2 + 1) : Bool) := by
          cases h : (n == i2) <;> simp_all
        rw [this]
      cases h0 : p 0 with
      | false =>
        simp only [Bool.false_eq_true, if_false]
        rw [htail, hcongr]
      | true =>
        simp only [if_true]
        rw [htail, hcongr]

theorem removeLoop_eq_excise :
    ∀ (l : List Nat) (doc : List α), l.Pairwise (· > ·) →
      (∀ i ∈ l, i < doc.length) →
      removeLoop doc l = .ok (exciseIndices doc (fun n => decide (n ∈ l))) := by
  intro l
  induction l with
  | nil =>
    intro doc _ _
    rw [exciseIndices_of_false doc (fun n => decide (n ∈ ([] : List Nat))) (by intro n; simp)]
    rfl
  | cons i is ih =>
    intro doc hpw hlt
    rcases List.pairwise_cons.mp hpw with ⟨hgt, hpw2⟩
    have hi : i < doc.length := hlt i (List.mem_cons_self i is)
    have hstep : removePage doc i = .ok (doc.eraseIdx i) := by
      simp [removePage, hi]
    have hlen : (doc.eraseIdx i).length = doc.length - 1 := by
      rw [List.length_eraseIdx]
      simp [hi]
    have hlt2 : ∀ j ∈ is, j < (doc.eraseIdx i).length := by
      intro j hj
      have h1 := hgt j hj
      rw [hlen]; omega
    have hrec := ih (doc.eraseIdx i) hpw2 hlt2
    simp only [removeLoop, hstep, Except.bind, hrec]
    congr 1
    rw [exciseIndices_eraseIdx doc i _ hi
      (by intro j hj; simp only [decide_eq_true_eq] at hj; exact hgt j hj)]
    apply exciseIndices_congr
    intro n
    by_cases h : n = i <;> simp [h, List.mem_cons]

theorem exciseIndices_length :
    ∀ (doc : List α) (p : Nat → Bool),
      (exciseIndices doc p).length
        = doc.length - ((List.range doc.length).filter p).length := by
  intro doc
  induction doc with
  | nil => intro p; rfl
  | cons a as ih =>
    intro p
    have hrange : (List.range (as.length + 1)).filter p
        = (if p 0 then [0] else []) ++ (List.map Nat.succ (List.range as.length)).filter p := by
      rw [List.range_succ_eq_map, List.filter_cons]
      cases h : p 0 <;> simp [h]
    have hmap : ((List.map Nat.succ (List.range as.length)).filter p).length
        = ((List.range as.length).filter (fun n => p (n + 1))).length := by
      rw [List.filter_map, List.length_map]
      apply congrArg
      apply List.filter_congr
      intro x _
      rfl
    have hle : ((List.range as.length).filter (fun n => p (n + 1))).length ≤ as.length := by
      calc ((List.range as.length).filter (fun n => p (n + 1))).length
          ≤ (List.range as.length).length := List.length_filter_le _ _
        _ = as.length := List.length_range as.length
    simp only [exciseIndices, List.length_cons, hrange]
    cases h : p 0 with
    | false =>
      simp only [Bool.false_eq_true, if_false, List.nil_append, List.length_cons, ih, hmap]
      omega
    | true =>
      simp only [if_true, List.cons_append, List.nil_append, List.length_cons, ih, hmap]
      omega

theorem filter_range_mem_length (l : List Nat) (N : Nat)
    (hnd : l.Nodup) (hlt : ∀ i ∈ l, i < N) :
    ((List.range N).filter (fun n => decide (n ∈ l))).length = l.length := by
  have hnd2 : ((List.range N).filter (fun n => decide (n ∈ l))).Nodup :=
    (List.nodup_range N).filter _
  have hmem : ∀ a, a ∈ (List.range N).filter (fun n => decide (n ∈ l)) ↔ a ∈ l := by
    intro a
    simp only [List.mem_filter, List.mem_range, decide_eq_true_eq]
    constructor
    · rintro ⟨_, h⟩; exact h
    · intro h; exact ⟨hlt a h, h⟩
  have hperm : ((List.range N).filter (fun n => decide (n ∈ l))).Perm l := by
    apply List.perm_of_nodup_nodup_toFinset_eq hnd2 hnd
    ext a
    simp only [List.mem_toFinset]
    exact hmem a
  exact hperm.length_eq

theorem copyPages_singleton (doc : List α) (i : Nat) (d : α) (hi : i < doc.length) :
    copyPages doc [i] = .ok [doc.getD i d] := by
  have h : doc[i]? = some doc[i] := List.getElem?_eq_getElem hi
  have hd : doc.getD i d = doc[i] := by
    rw [List.getD_eq_getElem?_getD, h]; rfl
  simp [copyPages, h, hd, Except.map]

theorem extractLoop_ok (doc : List α) (d : α) :
    ∀ (l : List Nat) (acc : List α), (∀ i ∈ l, i < doc.length) →
      extractLoop doc acc l = .ok (acc ++ l.map (fun i => doc.getD i d)) := by
  intro l
  induction l with
  | nil => intro acc _; simp [extractLoop]
  | cons i is ih =>
    intro acc hlt
    have hi : i < doc.length := hlt i (List.mem_cons_self i is)
    rw [extractLoop, copyPages_singleton doc i d hi]
    have h2 := ih (acc ++ [doc.getD i d]) (fun j hj => hlt j (List.mem_cons_of_mem i hj))
    simp only [Except.bind, h2, List.map_cons, List.append_assoc,
      List.singleton_append]

theorem copyPages_map_succ (a : α) (as : List α) :
    ∀ l : List Nat, copyPages (a :: as) (l.map Nat.succ) = copyPages as l := by
  intro l
  induction l with
  | nil => rfl
  | cons i is ih =>
    simp only [List.map_cons, copyPages, List.getElem?_cons_succ, ih]

theorem copyPages_range : ∀ d : List α, copyPages d (List.range d.length) = .ok d := by
  intro d
  induction d with
  | nil => rfl
  | cons a as ih =>
    rw [List.length_cons, List.range_succ_eq_map]
    simp only [copyPages, List.getElem?_cons_zero, copyPages_map_succ, ih,
      Except.map]

theorem mergeLoop_ok :
    ∀ (docs : List (List α)) (acc : List α),
      mergeLoop acc docs = .ok (acc ++ docs.flatten) := by
  intro docs
  induction docs with
  | nil => intro acc; simp [mergeLoop]
  | cons d ds ih =>
    intro acc
    rw [mergeLoop, getPageIndices, copyPages_range d]
    simp only [Except.bind, ih (acc ++ d), List.flatten_cons, List.append_assoc]

theorem genLoop_of_ctxOk (render : α → β) (ctxOk : Nat → Bool) (total : Nat)
    (hctx : ∀ i, ctxOk i = true) :
    ∀ (ps : List α) (i : Nat), 1 ≤ i →
      (genLoop render ctxOk total i ps).1.length = ps.length ∧
      (genLoop render ctxOk total i ps).1.map Thumb.index
        = (List.range ps.length).map (fun k => k + (i - 1)) ∧
      (genLoop render ctxOk total i ps).2
        = (List.range ps.length).map (fun k => (k + i, total)) := by
  intro ps
  induction ps with
  | nil => intro i _; simp [genLoop]
  | cons p ps ih =>
    intro i hi
    rcases ih (i + 1) (by omega) with ⟨hlen, hidx, hprog⟩
    rw [genLoop]
    simp only [hctx i, if_true]
    refine ⟨by simp [hlen], ?_, ?_⟩
    · simp only [List.map_cons, hidx, List.length_cons, List.range_succ_eq_map,
        List.map_map]
      congr 1
      · omega
      · apply List.map_congr_left
        intro k _
        simp only [Function.comp_apply, Nat.succ_eq_add_one]
        omega
    · simp only [hprog, List.length_cons, List.range_succ_eq_map, List.map_cons,
        List.map_map]
      congr 1
      · simp
      · apply List.map_congr_left
        intro k _
        simp only [Function.comp_apply, Nat.succ_eq_add_one]
        congr 1
        omega

theorem addRangeGo_eq :
    ∀ (n : Nat) (sel : Finset Nat) (i : Nat),
      addRangeGo sel i n = sel ∪ Finset.Ico i (i + n) := by
  intro n
  induction n with
  | zero =>
    intro sel i
    simp [addRangeGo]
  | succ n ih =>
    intro sel i
    rw [addRangeGo, ih]
    ext a
    simp only [Finset.mem_union, Finset.mem_insert, Finset.mem_Ico]
    constructor
    · rintro ((h | h) | h)
      · right; omega
      · left; exact h
      · right; omega
    · rintro (h | h)
      · left; right; exact h
      · by_cases hia : a = i
        · left; left; exact hia
        · right; omega

theorem addRange_eq (sel : Finset Nat) (a b : Nat) (hab : a ≤ b) :
    addRange sel a b = sel ∪ Finset.Icc a b := by
  rw [addRange, addRangeGo_eq]
  have : a + (b + 1 - a) = b + 1 := by omega
  rw [this, ← Nat.Ico_succ_right]

theorem togglePageSelection_fst_mem (idx : Nat) (shiftKey : Bool) (sel : Finset Nat)
    (last : Option Nat) (j : Nat)
    (hj : j ∈ (togglePageSelection idx shiftKey sel last).1) :
    j ∈ sel ∨ j = idx ∨ ∃ l2, last = some l2 ∧ j ≤ max l2 idx := by
  have htoggle : ∀ hj2 : j ∈ (if idx ∈ sel then sel.erase idx else insert idx sel),
      j ∈ sel ∨ j = idx ∨ ∃ l2, last = some l2 ∧ j ≤ max l2 idx := by
    intro hj2
    by_cases h : idx ∈ sel
    · rw [if_pos h] at hj2
      exact Or.inl (Finset.mem_of_mem_erase hj2)
    · rw [if_neg h] at hj2
      rcases Finset.mem_insert.mp hj2 with h2 | h2
      · exact Or.inr (Or.inl h2)
      · exact Or.inl h2
  cases shiftKey with
  | false => exact htoggle hj
  | true =>
    cases last with
    | none => exact htoggle hj
    | some l =>
      simp only [togglePageSelection] at hj
      rw [addRange_eq _ _ _ (le_trans (min_le_left l idx) (le_max_left l idx))] at hj
      rcases Finset.mem_union.mp hj with h2 | h2
      · exact Or.inl h2
      · exact Or.inr (Or.inr ⟨l, rfl, (Finset.mem_Icc.mp h2).2⟩)

theorem togglePageSelection_snd (idx : Nat) (shiftKey : Bool) (sel : Finset Nat)
    (last : Option Nat) :
    (togglePageSelection idx shiftKey sel last).2 = some idx ∨
    (togglePageSelection idx shiftKey sel last).2 = last := by
  cases shiftKey with
  | false => exact Or.inl rfl
  | true =>
    cases last with
    | none => exact Or.inl rfl
    | some l => exact Or.inr rfl

theorem appInv_step :
    ∀ {s s2 : AppState} {e : AppEvent}, AppInv s → Step s e s2 → AppInv s2 := by
  intro s s2 e h hs
  obtain ⟨h1, h2, h3⟩ := h
  cases hs with
  | selectStart N hf =>
    obtain ⟨hsel, hth, hls⟩ := h1 hf
    refine ⟨fun habs => absurd habs (by simp), fun _ => ⟨hsel, hth, hls⟩, ?_⟩
    intro M _
    refine ⟨?_, ?_, ?_⟩
    · intro i hi; rw [hsel] at hi; exact absurd hi (Finset.not_mem_empty i)
    · intro i hi; rw [hth] at hi; exact absurd hi (List.not_mem_nil i)
    · intro l2 hl2; rw [hls] at hl2; exact absurd hl2 (by simp)
  | selectSuccess N hf hp =>
    obtain ⟨hsel, hth, hls⟩ := h2 hp
    refine ⟨fun habs => ?_, fun habs => absurd habs (by simp), ?_⟩
    · rw [hf] at habs; exact absurd habs (by simp)
    · intro M hM
      have hMN : N = M := by
        have h4 : s.file = some M := hM
        rw [hf] at h4
        injection h4
      refine ⟨?_, ?_, ?_⟩
      · intro i hi; rw [hsel] at hi; exact absurd hi (Finset.not_mem_empty i)
      · intro i hi
        have : i < N := List.mem_range.mp hi
        omega
      · intro l2 hl2; rw [hls] at hl2; exact absurd hl2 (by simp)
  | selectFailure hp =>
    obtain ⟨hsel, hth, hls⟩ := h2 hp
    exact ⟨fun _ => ⟨hsel, hth, hls⟩, fun habs => absurd habs (by simp),
      fun M hM => absurd hM (by simp)⟩
  | pageClick idx shiftKey hf ht =>
    rcases Option.ne_none_iff_exists.mp hf with ⟨N, hN⟩
    obtain ⟨hselN, hthN, hlsN⟩ := h3 N hN.symm
    have hidxN : idx < N := hthN idx ht
    refine ⟨fun habs => ?_, fun habs => ?_, ?_⟩
    · rw [← hN] at habs; exact absurd habs (by simp)
    · obtain ⟨hsel, hth, _⟩ := h2 habs
      exact absurd ht (by rw [hth]; exact List.not_mem_nil idx)
    · intro M hM
      have hMN : N = M := by
        have h4 : s.file = some M := hM
        rw [← hN] at h4
        injection h4
      refine ⟨?_, fun i hi => hMN ▸ hthN i hi, ?_⟩
      · intro i hi
        rcases togglePageSelection_fst_mem idx shiftKey s.selected s.lastSelected i hi with
          hc | hc | ⟨l2, hl2, hc⟩
        · exact hMN ▸ hselN i hc
        · subst hc; omega
        · have hb1 : l2 < N := hlsN l2 hl2
          have hb2 : max l2 idx < N := by
            rcases max_choice l2 idx with hm | hm <;> omega
          omega
      · intro l2 hl2
        rcases togglePageSelection_snd idx shiftKey s.selected s.lastSelected with hc | hc
        · rw [hc] at hl2
          have : l2 = idx := by injection hl2; omega
          omega
        · rw [hc] at hl2
          have := hlsN l2 hl2
          omega
  | clearSelection hf =>
    refine ⟨fun habs => ?_, fun habs => ?_, ?_⟩
    · rcases Option.ne_none_iff_exists.mp hf with ⟨N, hN⟩
      rw [← hN] at habs; exact absurd habs (by simp)
    · obtain ⟨_, hth, hls⟩ := h2 habs
      exact ⟨rfl, hth, hls⟩
    · intro M hM
      obtain ⟨_, hthN, hlsN⟩ := h3 M hM
      exact ⟨fun i hi => absurd hi (Finset.not_mem_empty i), hthN, hlsN⟩
  | saveStart hf hsel hp =>
    exact ⟨fun habs => h1 habs, fun habs => absurd habs (by simp), h3⟩
  | saveFinish hp =>
    exact ⟨fun habs => h1 habs, fun habs => absurd habs (by simp), h3⟩
  | reset hf hp =>
    exact ⟨fun _ => ⟨rfl, rfl, rfl⟩, fun habs => absurd habs (by simp [appInit]),
      fun M hM => absurd hM (by simp [appInit])⟩

theorem reachable_appInv : ∀ {s : AppState}, Reachable s → AppInv s := by
  intro s h
  induction h with
  | init =>
    exact ⟨fun _ => ⟨rfl, rfl, rfl⟩, fun habs => absurd habs (by simp [appInit]),
      fun M hM => absurd hM (by simp [appInit])⟩
  | step hr hstep ih => exact appInv_step ih hstep

/-! ## Claims -/

/-- C1: on an `N`-page document and a set of distinct in-range page
indices `l`, `removePagesAndSave` removes the indices in strictly
descending order and yields a document with exactly `N - |l|` pages whose
page order is the original order with the members of `l` excised. -/
theorem removePagesAndSave_excises (doc : List α) (l : List Nat)
    (hnd : l.Nodup) (hlt : ∀ i ∈ l, i < doc.length) :
    (sortDesc l).Pairwise (· > ·) ∧ (sortDesc l).Perm l ∧
    removePagesAndSave doc l
      = .ok (exciseIndices doc (fun n => decide (n ∈ l))) ∧
    (exciseIndices doc (fun n => decide (n ∈ l))).length
      = doc.length - l.length := by
  have hperm := sortDesc_perm l
  have hnd2 : (sortDesc l).Nodup := hnd.perm hperm.symm
  have hgt : (sortDesc l).Pairwise (· > ·) :=
    pairwise_gt_of_ge_nodup (sortDesc_pairwise_ge l) hnd2
  have hlt2 : ∀ i ∈ sortDesc l, i < doc.length := fun i hi => hlt i (hperm.subset hi)
  have hrl := removeLoop_eq_excise (sortDesc l) doc hgt hlt2
  have hcongr : exciseIndices doc (fun n => decide (n ∈ sortDesc l))
      = exciseIndices doc (fun n => decide (n ∈ l)) := by
    apply exciseIndices_congr
    intro n
    simp [hperm.mem_iff]
  refine ⟨hgt, hperm, ?_, ?_⟩
  · rw [removePagesAndSave, hrl, hcongr]
  · rw [exciseIndices_length, filter_range_mem_length l doc.length hnd hlt]

/-- Witness for C1 at a concrete 4-page document and index set. -/
theorem removePagesAndSave_excises_witness :
    (sortDesc [1, 3]).Pairwise (· > ·) ∧ (sortDesc [1, 3]).Perm [1, 3] ∧
    removePagesAndSave [10, 20, 30, 40] [1, 3]
      = .ok (exciseIndices [10, 20, 30, 40] (fun n => decide (n ∈ [1, 3]))) ∧
    (exciseIndices [10, 20, 30, 40] (fun n => decide (n ∈ [1, 3]))).length
      = ([10, 20, 30, 40] : List Nat).length - ([1, 3] : List Nat).length :=
  removePagesAndSave_excises [10, 20, 30, 40] [1, 3] (by decide) (by decide)

/-- C2: for in-range page indices `l`, supplied in any order,
`extractPagesAndSave` yields a document with exactly `|l|` pages whose
order is `l` sorted ascending (original document order); any permutation
of the supplied indices gives the same output. -/
theorem extractPagesAndSave_sorted_ascending (doc : List α) (d : α) (l : List Nat)
    (hlt : ∀ i ∈ l, i < doc.length) :
    extractPagesAndSave doc l = .ok ((sortAsc l).map (fun i => doc.getD i d)) ∧
    ((sortAsc l).map (fun i => doc.getD i d)).length = l.length ∧
    (sortAsc l).Sorted (· ≤ ·) ∧ (sortAsc l).Perm l ∧
    ∀ l2, l.Perm l2 → extractPagesAndSave doc l2 = extractPagesAndSave doc l := by
  have hperm := sortAsc_perm l
  have h1 := extractLoop_ok doc d (sortAsc l) []
    (fun i hi => hlt i (hperm.subset hi))
  refine ⟨?_, ?_, sortAsc_sorted l, hperm, ?_⟩
  · rw [extractPagesAndSave, h1, List.nil_append]
  · rw [List.length_map, hperm.length_eq]
  · intro l2 hl2
    have heq : sortAsc l2 = sortAsc l :=
      List.eq_of_perm_of_sorted
        (((sortAsc_perm l2).trans hl2.symm).trans hperm.symm)
        (sortAsc_sorted l2) (sortAsc_sorted l)
    rw [extractPagesAndSave, extractPagesAndSave, heq]

/-- Witness for C2 at a concrete 5-page document with indices supplied
out of order. -/
theorem extractPagesAndSave_sorted_ascending_witness :
    extractPagesAndSave [10, 20, 30, 40, 50] [3, 0, 1]
      = .ok ((sortAsc [3, 0, 1]).map (fun i => ([10, 20, 30, 40, 50] : List Nat).getD i 0)) ∧
    ((sortAsc [3, 0, 1]).map (fun i => ([10, 20, 30, 40, 50] : List Nat).getD i 0)).length
      = ([3, 0, 1] : List Nat).length ∧
    (sortAsc [3, 0, 1]).Sorted (· ≤ ·) ∧ (sortAsc [3, 0, 1]).Perm [3, 0, 1] ∧
    ∀ l2, ([3, 0, 1] : List Nat).Perm l2 →
      extractPagesAndSave [10, 20, 30, 40, 50] l2
        = extractPagesAndSave [10, 20, 30, 40, 50] [3, 0, 1] :=
  extractPagesAndSave_sorted_ascending [10, 20, 30, 40, 50] 0 [3, 0, 1] (by decide)

/-- C3: `mergePdfs` yields a document whose pages are the concatenation
of the inputs' pages, each input in its own internal order, inputs taken
in list order; the output page count is the sum of the input page
counts. -/
theorem mergePdfs_concatenates (docs : List (List α)) :
    mergePdfs docs = .ok docs.flatten ∧
    docs.flatten.length = (docs.map List.length).sum := by
  constructor
  · rw [mergePdfs, mergeLoop_ok docs [], List.nil_append]
  · exact List.length_flatten docs

/-- C4: when the capability is present and the user cancels the
save-location prompt (the picker throws `AbortError`), the coordinator
stops: it returns `cancelled`, the page mutator is never invoked,
nothing is written, and no implicit download happens. -/
theorem handleConfirmSave_abort_cancels (env : SaveEnv) (f : Nat)
    (hfs : env.supportsFS = true) (e : JsErr) (hp : env.pickerResult = .error e)
    (hn : e.name = "AbortError") :
    handleConfirmSave env (some f) = (.cancelled, []) ∧
    SaveEv.mutatorInvoked ∉ (handleConfirmSave env (some f)).2 ∧
    SaveEv.wroteToHandle ∉ (handleConfirmSave env (some f)).2 ∧
    SaveEv.downloadedBlob ∉ (handleConfirmSave env (some f)).2 := by
  have heq : handleConfirmSave env (some f) = (.cancelled, []) := by
    simp [handleConfirmSave, getSaveFileHandle, hfs, hp, hn]
  refine ⟨heq, ?_, ?_, ?_⟩ <;> rw [heq] <;> simp

/-- Witness for C4 at a concrete environment whose picker throws
`AbortError`. -/
theorem handleConfirmSave_abort_cancels_witness :
    handleConfirmSave ⟨true, .error ⟨"AbortError"⟩, .ok 0, .ok ()⟩ (some 1)
      = (.cancelled, []) ∧
    SaveEv.mutatorInvoked
      ∉ (handleConfirmSave ⟨true, .error ⟨"AbortError"⟩, .ok 0, .ok ()⟩ (some 1)).2 ∧
    SaveEv.wroteToHandle
      ∉ (handleConfirmSave ⟨true, .error ⟨"AbortError"⟩, .ok 0, .ok ()⟩ (some 1)).2 ∧
    SaveEv.downloadedBlob
      ∉ (handleConfirmSave ⟨true, .error ⟨"AbortError"⟩, .ok 0, .ok ()⟩ (some 1)).2 :=
  handleConfirmSave_abort_cancels ⟨true, .error ⟨"AbortError"⟩, .ok 0, .ok ()⟩ 1
    rfl ⟨"AbortError"⟩ rfl rfl

/-- C9: when handle acquisition fails for a reason other than user
cancellation, the save does not fail: apart from a console warning the
run is exactly the run with no native destination, the mutator is still
invoked, and when the mutation succeeds the bytes go to the implicit
download with no error surfaced. -/
theorem handleConfirmSave_fallback (env : SaveEnv) (f : Nat)
    (hfs : env.supportsFS = true) (e : JsErr) (hp : env.pickerResult = .error e)
    (hn : e.name ≠ "AbortError") :
    (handleConfirmSave env (some f)).1
      = (handleConfirmSave { env with supportsFS := false } (some f)).1 ∧
    (handleConfirmSave env (some f)).2
      = .warnedHandleFailure
          :: (handleConfirmSave { env with supportsFS := false } (some f)).2 ∧
    SaveEv.mutatorInvoked ∈ (handleConfirmSave env (some f)).2 ∧
    ∀ b, env.mutateResult = .ok b →
      (handleConfirmSave env (some f)).1 = .completed ∧
      SaveEv.downloadedBlob ∈ (handleConfirmSave env (some f)).2 ∧
      SaveEv.alertedError ∉ (handleConfirmSave env (some f)).2 ∧
      SaveEv.wroteToHandle ∉ (handleConfirmSave env (some f)).2 := by
  have heq : handleConfirmSave env (some f)
      = finishSave env none [.warnedHandleFailure] := by
    simp [handleConfirmSave, getSaveFileHandle, hfs, hp, hn]
  have heq2 : handleConfirmSave { env with supportsFS := false } (some f)
      = finishSave env none [] := by
    simp [handleConfirmSave, finishSave]
  refine ⟨?_, ?_, ?_, ?_⟩
  · rw [heq, heq2]
    cases hm : env.mutateResult <;> simp [finishSave, hm]
  · rw [heq, heq2]
    cases hm : env.mutateResult <;> simp [finishSave, hm]
  · rw [heq]
    cases hm : env.mutateResult <;> simp [finishSave, hm]
  · intro b hb
    refine ⟨?_, ?_, ?_, ?_⟩ <;> rw [heq] <;> simp [finishSave, hb]

/-- Witness for C9 at a concrete environment whose picker throws a
non-abort error and whose mutation succeeds. -/
theorem handleConfirmSave_fallback_witness :
    (handleConfirmSave ⟨true, .error ⟨"SecurityError"⟩, .ok 0, .ok ()⟩ (some 1)).1
      = (handleConfirmSave
          { (⟨true, .error ⟨"SecurityError"⟩, .ok 0, .ok ()⟩ : SaveEnv) with
            supportsFS := false } (some 1)).1 ∧
    (handleConfirmSave ⟨true, .error ⟨"SecurityError"⟩, .ok 0, .ok ()⟩ (some 1)).2
      = .warnedHandleFailure
          :: (handleConfirmSave
              { (⟨true, .error ⟨"SecurityError"⟩, .ok 0, .ok ()⟩ : SaveEnv) with
                supportsFS := false } (some 1)).2 ∧
    SaveEv.mutatorInvoked
      ∈ (handleConfirmSave ⟨true, .error ⟨"SecurityError"⟩, .ok 0, .ok ()⟩ (some 1)).2 ∧
    ∀ b, (⟨true, .error ⟨"SecurityError"⟩, .ok 0, .ok ()⟩ : SaveEnv).mutateResult = .ok b →
      (handleConfirmSave ⟨true, .error ⟨"SecurityError"⟩, .ok 0, .ok ()⟩ (some 1)).1
        = .completed ∧
      SaveEv.downloadedBlob
        ∈ (handleConfirmSave ⟨true, .error ⟨"SecurityError"⟩, .ok 0, .ok ()⟩ (some 1)).2 ∧
      SaveEv.alertedError
        ∉ (handleConfirmSave ⟨true, .error ⟨"SecurityError"⟩, .ok 0, .ok ()⟩ (some 1)).2 ∧
      SaveEv.wroteToHandle
        ∉ (handleConfirmSave ⟨true, .error ⟨"SecurityError"⟩, .ok 0, .ok ()⟩ (some 1)).2 :=
  handleConfirmSave_fallback ⟨true, .error ⟨"SecurityError"⟩, .ok 0, .ok ()⟩ 1
    rfl ⟨"SecurityError"⟩ rfl (by decide)

/-- C5, counterexample: a handle whose write step throws.  The claim says
the stream is closed even when the write throws, but `writePdfToHandle`
has no try/finally: the close step never runs and the write error
propagates. -/
theorem writePdfToHandle_no_close_on_write_error :
    WriteEv.closedWritable
      ∉ (writePdfToHandle ⟨.ok ⟨.error ⟨"NotAllowedError"⟩, .ok ()⟩⟩).1 ∧
    (writePdfToHandle ⟨.ok ⟨.error ⟨"NotAllowedError"⟩, .ok ()⟩⟩).2
      = some ⟨"NotAllowedError"⟩ := by
  constructor
  · intro h
    simp [writePdfToHandle] at h
  · rfl

/-- C5 as amended: the write step opens a write stream, writes the full
output and closes the stream when the write succeeds; when the write
throws, the error propagates and the stream is not closed. -/
theorem writePdfToHandle_close_behaviour (h : HandleBeh) (w : WritableBeh)
    (hc : h.createResult = .ok w) :
    (w.writeResult = .ok () → w.closeResult = .ok () →
      writePdfToHandle h
        = ([.createdWritable, .wroteData, .closedWritable], none)) ∧
    ∀ e, w.writeResult = .error e →
      writePdfToHandle h = ([.createdWritable], some e) ∧
      WriteEv.closedWritable ∉ (writePdfToHandle h).1 := by
  constructor
  · intro hw hcl
    simp [writePdfToHandle, hc, hw, hcl]
  · intro e he
    have heq : writePdfToHandle h = ([.createdWritable], some e) := by
      simp [writePdfToHandle, hc, he]
    refine ⟨heq, ?_⟩
    rw [heq]
    simp

/-- Witness for the amended C5 at a concrete handle. -/
theorem writePdfToHandle_close_behaviour_witness :
    ((⟨.error ⟨"QuotaExceededError"⟩, .ok ()⟩ : WritableBeh).writeResult = .ok () →
      (⟨.error ⟨"QuotaExceededError"⟩, .ok ()⟩ : WritableBeh).closeResult = .ok () →
      writePdfToHandle ⟨.ok ⟨.error ⟨"QuotaExceededError"⟩, .ok ()⟩⟩
        = ([.createdWritable, .wroteData, .closedWritable], none)) ∧
    ∀ e, (⟨.error ⟨"QuotaExceededError"⟩, .ok ()⟩ : WritableBeh).writeResult = .error e →
      writePdfToHandle ⟨.ok ⟨.error ⟨"QuotaExceededError"⟩, .ok ()⟩⟩
        = ([.createdWritable], some e) ∧
      WriteEv.closedWritable
        ∉ (writePdfToHandle ⟨.ok ⟨.error ⟨"QuotaExceededError"⟩, .ok ()⟩⟩).1 :=
  writePdfToHandle_close_behaviour ⟨.ok ⟨.error ⟨"QuotaExceededError"⟩, .ok ()⟩⟩
    ⟨.error ⟨"QuotaExceededError"⟩, .ok ()⟩ rfl

/-- C6: in every reachable component state every selected index is below
the page count of the loaded document (with an empty selection when no
document is loaded), and any step that replaces the document
(`selectStart`) or resets the session leaves an empty selection. -/
theorem selection_indices_in_range (s : AppState) (hs : Reachable s) :
    (∀ N, s.file = some N → ∀ i ∈ s.selected, i < N) ∧
    (s.file = none → s.selected = ∅) ∧
    ∀ e s2, Step s e s2 →
      (e = .reset ∨ ∃ N, e = .selectStart N) → s2.selected = ∅ := by
  obtain ⟨h1, h2, h3⟩ := reachable_appInv hs
  refine ⟨fun N hN => (h3 N hN).1, fun hN => (h1 hN).1, ?_⟩
  intro e s2 hstep hor
  cases hstep with
  | selectStart N hf => exact (h1 hf).1
  | reset hf hp => rfl
  | selectSuccess N hf hp =>
    rcases hor with h | ⟨N2, h⟩ <;> exact absurd h (by simp)
  | selectFailure hp =>
    rcases hor with h | ⟨N2, h⟩ <;> exact absurd h (by simp)
  | pageClick idx shiftKey hf ht =>
    rcases hor with h | ⟨N2, h⟩ <;> exact absurd h (by simp)
  | clearSelection hf =>
    rcases hor with h | ⟨N2, h⟩ <;> exact absurd h (by simp)
  | saveStart hf hsel hp =>
    rcases hor with h | ⟨N2, h⟩ <;> exact absurd h (by simp)
  | saveFinish hp =>
    rcases hor with h | ⟨N2, h⟩ <;> exact absurd h (by simp)

/-- Witness for C6 at a reachable state in which a save is in flight
over a non-empty selection (load a 3-page file, let the thumbnails
resolve, click page 1, start the save). -/
theorem selection_indices_in_range_witness :
    (∀ N, (⟨some 3, List.range 3, {1}, some 1, true, .saving⟩ : AppState).file = some N →
      ∀ i ∈ (⟨some 3, List.range 3, {1}, some 1, true, .saving⟩ : AppState).selected,
        i < N) ∧
    ((⟨some 3, List.range 3, {1}, some 1, true, .saving⟩ : AppState).file = none →
      (⟨some 3, List.range 3, {1}, some 1, true, .saving⟩ : AppState).selected = ∅) ∧
    ∀ e s2, Step (⟨some 3, List.range 3, {1}, some 1, true, .saving⟩ : AppState) e s2 →
      (e = .reset ∨ ∃ N, e = .selectStart N) → s2.selected = ∅ := by
  apply selection_indices_in_range
  have r1 : Reachable (⟨some 3, [], ∅, none, true, .loading⟩ : AppState) :=
    Reachable.step Reachable.init (Step.selectStart appInit 3 rfl)
  have r2 : Reachable (⟨some 3, List.range 3, ∅, none, false, .idle⟩ : AppState) :=
    Reachable.step r1 (Step.selectSuccess _ 3 rfl rfl)
  have r3 : Reachable (⟨some 3, List.range 3, {1}, some 1, false, .idle⟩ : AppState) := by
    have hstep := Step.pageClick (⟨some 3, List.range 3, ∅, none, false, .idle⟩ : AppState)
      1 false (by simp) (by decide)
    have hEq : ({ (⟨some 3, List.range 3, ∅, none, false, .idle⟩ : AppState) with
        selected := (togglePageSelection 1 false ∅ none).1,
        lastSelected := (togglePageSelection 1 false ∅ none).2 } : AppState)
        = (⟨some 3, List.range 3, {1}, some 1, false, .idle⟩ : AppState) := by decide
    exact Reachable.step r2 (hEq ▸ hstep)
  exact Reachable.step r3 (Step.saveStart _ (by simp) ⟨1, by decide⟩ rfl)

/-- C7: when the decoder opens the document (and every 2d-context
acquisition succeeds, as it does in a browser), thumbnail generation
produces exactly one thumbnail per page with indices `0..N-1` in
ascending order, reporting `(pagesCompleted, totalPages)` after each
page; when the open fails the error propagates and no thumbnails are
produced. -/
theorem generateThumbnails_spec (render : α → β) (ctxOk : Nat → Bool)
    (hctx : ∀ i, ctxOk i = true) (openResult : Except ε (List α)) :
    (∀ pages, openResult = .ok pages →
      ∃ ts prog, generateThumbnails render ctxOk openResult = .ok (ts, prog) ∧
        ts.length = pages.length ∧
        ts.map Thumb.index = List.range pages.length ∧
        prog = (List.range pages.length).map (fun k => (k + 1, pages.length))) ∧
    ∀ e, openResult = .error e →
      generateThumbnails render ctxOk openResult = .error e := by
  constructor
  · intro pages hok
    subst hok
    obtain ⟨hlen, hidx, hprog⟩ :=
      genLoop_of_ctxOk render ctxOk pages.length hctx pages 1 (le_refl 1)
    refine ⟨(genLoop render ctxOk pages.length 1 pages).1,
      (genLoop render ctxOk pages.length 1 pages).2, rfl, hlen, ?_, hprog⟩
    rw [hidx]
    have : ∀ k, k + (1 - 1) = k := by intro k; omega
    simp
  · intro e he
    subst he
    rfl

/-- Witness for C7 at a concrete successful open and a concrete failed
open. -/
theorem generateThumbnails_spec_witness :
    ((∀ pages, (.ok [7, 8, 9] : Except Nat (List Nat)) = .ok pages →
      ∃ ts prog, generateThumbnails (fun p => p * 100) (fun _ => true)
          (.ok [7, 8, 9] : Except Nat (List Nat)) = .ok (ts, prog) ∧
        ts.length = pages.length ∧
        ts.map Thumb.index = List.range pages.length ∧
        prog = (List.range pages.length).map (fun k => (k + 1, pages.length))) ∧
    ∀ e, (.ok [7, 8, 9] : Except Nat (List Nat)) = .error e →
      generateThumbnails (fun p => p * 100) (fun _ => true)
        (.ok [7, 8, 9] : Except Nat (List Nat)) = .error e) ∧
    ((∀ pages, (.error 42 : Except Nat (List Nat)) = .ok pages →
      ∃ ts prog, generateThumbnails (fun p => p * 100) (fun _ => true)
          (.error 42 : Except Nat (List Nat)) = .ok (ts, prog) ∧
        ts.length = pages.length ∧
        ts.map Thumb.index = List.range pages.length ∧
        prog = (List.range pages.length).map (fun k => (k + 1, pages.length))) ∧
    ∀ e, (.error 42 : Except Nat (List Nat)) = .error e →
      generateThumbnails (fun p => p * 100) (fun _ => true)
        (.error 42 : Except Nat (List Nat)) = .error e) :=
  ⟨generateThumbnails_spec (fun p => p * 100) (fun _ => true) (fun _ => rfl)
      (.ok [7, 8, 9]),
    generateThumbnails_spec (fun p => p * 100) (fun _ => true) (fun _ => rfl)
      (.error 42)⟩

/-- C8: with a last-touched index present, a shift-click on `idx` adds
exactly the inclusive span between the last-touched index and `idx` to
the selection, removing nothing; concretely, `toggle(2)` then
`extendRange(5, true)` gives `{2, 3, 4, 5}` and a further
`extendRange(0, true)` gives `{0, 1, 2, 3, 4, 5}`. -/
theorem toggle_range_additive (sel : Finset Nat) (l idx : Nat) :
    (togglePageSelection idx true sel (some l)).1
      = sel ∪ Finset.Icc (min l idx) (max l idx) ∧
    (∀ j ∈ sel, j ∈ (togglePageSelection idx true sel (some l)).1) ∧
    togglePageSelection 2 false ∅ none = ({2}, some 2) ∧
    togglePageSelection 5 true {2} (some 2) = ({2, 3, 4, 5}, some 2) ∧
    togglePageSelection 0 true {2, 3, 4, 5} (some 2)
      = ({0, 1, 2, 3, 4, 5}, some 2) := by
  have h1 : (togglePageSelection idx true sel (some l)).1
      = sel ∪ Finset.Icc (min l idx) (max l idx) := by
    show addRange sel (min l idx) (max l idx) = _
    exact addRange_eq sel _ _ (le_trans (min_le_left l idx) (le_max_left l idx))
  refine ⟨h1, ?_, by decide, by decide, by decide⟩
  intro j hj
  rw [h1]
  exact Finset.mem_union_left _ hj

/-- C10: neither `removePagesAndSave` nor `extractPagesAndSave` mutates
the caller's index array: both sort a spread copy, so after the call the
argument array holds exactly its previous contents, while the computed
result agrees with the list-level model. -/
theorem index_array_not_mutated (doc doc2 : List α) (σ : Nat → List Nat)
    (r fresh : Nat) (hne : fresh ≠ r) :
    (removePagesAndSaveStore doc σ r fresh).1 r = σ r ∧
    (extractPagesAndSaveStore doc2 σ r fresh).1 r = σ r ∧
    (removePagesAndSaveStore doc σ r fresh).2 = removePagesAndSave doc (σ r) ∧
    (extractPagesAndSaveStore doc2 σ r fresh).2 = extractPagesAndSave doc2 (σ r) := by
  have hr : ¬(r = fresh) := fun h => hne h.symm
  refine ⟨?_, ?_, ?_, ?_⟩ <;>
    simp [removePagesAndSaveStore, extractPagesAndSaveStore,
      removePagesAndSave, extractPagesAndSave, hr]

/-- Witness for C10 at a concrete store holding the index array
`[3, 1, 2]` at reference 0, with reference 1 fresh. -/
theorem index_array_not_mutated_witness :
    (removePagesAndSaveStore [10, 20, 30, 40] (fun _ => [3, 1, 2]) 0 1).1 0
      = (fun _ => [3, 1, 2] : Nat → List Nat) 0 ∧
    (extractPagesAndSaveStore [10, 20, 30, 40] (fun _ => [3, 1, 2]) 0 1).1 0
      = (fun _ => [3, 1, 2] : Nat → List Nat) 0 ∧
    (removePagesAndSaveStore [10, 20, 30, 40] (fun _ => [3, 1, 2]) 0 1).2
      = removePagesAndSave [10, 20, 30, 40] ((fun _ => [3, 1, 2] : Nat → List Nat) 0) ∧
    (extractPagesAndSaveStore [10, 20, 30, 40] (fun _ => [3, 1, 2]) 0 1).2
      = extractPagesAndSave [10, 20, 30, 40] ((fun _ => [3, 1, 2] : Nat → List Nat) 0) :=
  index_array_not_mutated [10, 20, 30, 40] [10, 20, 30, 40]
    (fun _ => [3, 1, 2]) 0 1 (by decide)

end PdfTool
